import Mathlib

/-!
Shallow embedding of `setuptools_download.py` (manifest parser, predicate
engine, platform filter, digest check) and proofs about the claims of the
specification.  Python strings are modelled as `List Char`; Python `bytes`
as `List Nat` (each element a byte value); machine words in the SHA-256
computation as `Nat` reduced mod `2 ^ 32`; fallible code as `Except`.
-/

namespace SetuptoolsDownload

/-- Strings of the Python source are modelled as lists of characters. -/
abbrev Str := List Char

/-- Whitespace characters recognised by Python `str.strip()` / `str.split()`
(the six ASCII whitespace characters; exotic Unicode whitespace is not
modelled, no input considered here contains any). -/
def isPySpace (c : Char) : Bool :=
  c = ' ' || c = '\t' || c = '\n' || c = '\r' || c = '\x0b' || c = '\x0c'

/-- Python `s.strip()`: remove leading and trailing whitespace. -/
def pyStrip (s : Str) : Str :=
  ((s.dropWhile isPySpace).reverse.dropWhile isPySpace).reverse

/-- Python `sep in s` (substring containment, for non-degenerate and also
for empty `sep`). -/
def containsSubstr (sep : Str) : Str → Bool
  | [] => sep.isEmpty
  | c :: rest => sep.isPrefixOf (c :: rest) || containsSubstr sep rest

/-- Fueled worker for `splitOnSep`; the fuel is structurally decreasing
so that applications on concrete strings reduce in the kernel.  With
fuel at least the length of the string the fuel never runs out (the
recursive calls drop at least one character). -/
def splitOnSepGo (sep : Str) : Nat → Str → List Str
  | 0, s => [s]
  | _ + 1, [] => [[]]
  | fuel + 1, c :: rest =>
    if sep ≠ [] ∧ sep.isPrefixOf (c :: rest) then
      [] :: splitOnSepGo sep fuel ((c :: rest).drop sep.length)
    else
      match splitOnSepGo sep fuel rest with
      | [] => [[c]]
      | x :: xs => (c :: x) :: xs

/-- Python `s.split(sep)` for a non-empty separator: split at every
leftmost non-overlapping occurrence of `sep`.  For `sep = []` it returns
`[s]` (Python raises there; never used that way). -/
def splitOnSep (sep s : Str) : List Str := splitOnSepGo sep s.length s

/-- Worker for `splitWs`; `cur` is the current token, reversed. -/
def splitWsGo (cur : Str) : Str → List Str
  | [] => if cur = [] then [] else [cur.reverse]
  | c :: rest =>
    if isPySpace c then
      if cur = [] then splitWsGo [] rest
      else cur.reverse :: splitWsGo [] rest
    else splitWsGo (c :: cur) rest

/-- Python `s.split()` (no argument): split on runs of whitespace,
discarding empty pieces. -/
def splitWs (s : Str) : List Str := splitWsGo [] s

/-- Python `s.splitlines()` worker: `acc` is the current line, reversed. -/
def pySplitlinesGo (acc : Str) : Str → List Str
  | [] => [acc.reverse]
  | '\r' :: '\n' :: rest =>
    acc.reverse :: (if rest = [] then [] else pySplitlinesGo [] rest)
  | '\n' :: rest =>
    acc.reverse :: (if rest = [] then [] else pySplitlinesGo [] rest)
  | '\r' :: rest =>
    acc.reverse :: (if rest = [] then [] else pySplitlinesGo [] rest)
  | c :: rest => pySplitlinesGo (c :: acc) rest

/-- Python `s.splitlines()` over the line breaks `\n`, `\r`, `\r\n`
(the exotic Unicode line breaks are not modelled; no input considered
here contains any). -/
def pySplitlines (s : Str) : List Str :=
  if s = [] then [] else pySplitlinesGo [] s

/-- The `_Key` enumeration of environment keys (`_Key` in the source):
note that the internal test-only key `_internal` is a full member. -/
inductive _Key
  | os_name
  | sys_platform
  | platform_machine
  | _internal
deriving DecidableEq

/-- Member list of `_Key.__members__`, in declaration order, with the
Python member names. -/
def keyMembers : List (Str × _Key) :=
  [("os_name".data, _Key.os_name),
   ("sys_platform".data, _Key.sys_platform),
   ("platform_machine".data, _Key.platform_machine),
   ("_internal".data, _Key._internal)]

/-- Python `name in _Key.__members__` / `_Key[name]` combined: the key
for a member name, if any. -/
def keyOfString (s : Str) : Option _Key :=
  (keyMembers.find? (fun p => decide (p.1 = s))).map (fun p => p.2)

/-- The `_KEY_DISPLAY` constant: a parenthesised `|`-joined enumeration of
the member names other than `_internal`. -/
def _KEY_DISPLAY : Str :=
  '(' :: (List.intercalate "|".data
    ((keyMembers.map (fun p => p.1)).filter (fun n => decide (n ≠ "_internal".data)))) ++ [')']

/-- The `Marker` named tuple: original text plus the parsed
(key, expected value) pairs. -/
structure Marker where
  orig : Str
  parts : List (_Key × Str)
deriving DecidableEq

/-- The `Marker.evaluate` method: true iff every pair matches the
environment snapshot. -/
def Marker.evaluate (m : Marker) (env : _Key → Str) : Bool :=
  m.parts.all (fun kv => env kv.1 == kv.2)

/-- Errors raised by `Marker.parse`: `unsupported` is the
`NotImplementedError` for `or`, `invalid` is the `ValueError` for a bad
clause (carrying the key display and the offending clause, the two
varying pieces of the message text). -/
inductive MarkerErr
  | unsupported (msg : Str)
  | invalid (display chunk : Str)
deriving DecidableEq

/-- Message of the `NotImplementedError` raised on `or`. -/
def orMessage : Str :=
  "Marker only supports `and` -- maybe repeat `marker =`?".data

/-- One clause of `Marker.parse`: must tokenize into exactly
`key == "value"`; mirrors the combined condition of the source
(wrong token count, unknown key, operator not `==`, value token not
starting or not ending with a double quote all raise the same error). -/
def parseClause (chunk : Str) : Except MarkerErr (_Key × Str) :=
  match splitWs chunk with
  | [k, op, v] =>
    match keyOfString k with
    | some key =>
      if op = "==".data ∧ v.head? = some '\"' ∧ v.getLast? = some '\"' then
        Except.ok (key, (v.drop 1).dropLast)
      else Except.error (MarkerErr.invalid _KEY_DISPLAY chunk)
    | none => Except.error (MarkerErr.invalid _KEY_DISPLAY chunk)
  | _ => Except.error (MarkerErr.invalid _KEY_DISPLAY chunk)

/-- The `Marker.parse` classmethod. -/
def Marker.parse (s : Str) : Except MarkerErr Marker :=
  if containsSubstr " or ".data s then
    Except.error (MarkerErr.unsupported orMessage)
  else
    match (splitOnSep " and ".data s).mapM parseClause with
    | Except.error e => Except.error e
    | Except.ok ps => Except.ok ⟨s, ps⟩

/-- The `Archive` named tuple (extraction strategy and member path). -/
structure Archive where
  strategy : Str
  path : Str
deriving DecidableEq

/-- Default `Archive()`: the no-op strategy with empty path. -/
def Archive.default : Archive := ⟨"noop".data, []⟩

/-- The `File` named tuple (one manifest section). -/
structure File where
  path : Str
  url : Str
  sha256 : Str
  archive : Archive
  group : Option Str
  markers : List Marker
deriving DecidableEq

/-- Key set of the `_EXTRACT` dictionary, in declaration order. -/
def _EXTRACT_keys : List Str := ["noop".data, "tar".data, "zip".data]

/-- Errors raised by `_parse` (each constructor one `ValueError` site;
`badLine` models the unpacking `ValueError` Python raises on a body line
without `=`). -/
inductive ParseErr
  | junk (sect junkText : Str)
  | badLine (sect path line : Str)
  | duplicateKey (sect path key : Str)
  | unexpectedKey (sect path key : Str)
  | missingUrlSha (sect path : Str)
  | missingExtractPair (sect path : Str)
  | badExtract (sect path value listing : Str)
  | missingGroupMarker (sect path : Str)
  | marker (e : MarkerErr)
deriving DecidableEq

/-- A line is matched by the `_SECTION` regular expression
`^\[([^]\n]+)\]$` (with MULTILINE, a match is always one whole
newline-delimited line) iff it is `[` + a non-empty bracket-free name
+ `]`. -/
def isHeaderLine (l : Str) : Bool :=
  match l with
  | '[' :: rest =>
    decide (2 ≤ rest.length) && (rest.getLast? == some ']') &&
      rest.dropLast.all (fun c => c ≠ ']')
  | _ => false

/-- Name captured by the `_SECTION` regular expression for a header line. -/
def headerName (l : Str) : Str := (l.drop 1).dropLast

/-- Worker for the grouping of the pieces produced by `_SECTION.split`:
`name` is the current header, `acc` the body lines collected so far,
reversed. -/
def gatherSectionsGo (name : Str) (acc : List Str) : List Str → List (Str × List Str)
  | [] => [(name, acc.reverse)]
  | l :: rest =>
    if isHeaderLine l then
      (name, acc.reverse) :: gatherSectionsGo (headerName l) [] rest
    else gatherSectionsGo name (l :: acc) rest

/-- Grouping of the pieces produced by `_SECTION.split`: each header with
the raw lines up to the next header (leading non-header lines are the
junk handled separately by `_parse`). -/
def gatherSections : List Str → List (Str × List Str)
  | [] => []
  | l :: rest =>
    if isHeaderLine l then gatherSectionsGo (headerName l) [] rest
    else gatherSections rest

/-- Python `line.split('=', 1)`: split at the first `=`, `none` when the
line has no `=` (where Python raises an unpacking `ValueError`). -/
def splitKV (line : Str) : Option (Str × Str) :=
  if containsSubstr ['='] line then
    some (line.takeWhile (fun c => c ≠ '='), (line.dropWhile (fun c => c ≠ '=')).drop 1)
  else none

/-- The `values` dictionary built per section (domain is the five
recognised single-occurrence keys). -/
structure SectionValues where
  url : Option Str
  sha256 : Option Str
  extract : Option Str
  extract_path : Option Str
  group : Option Str
deriving DecidableEq

/-- The empty `values` dictionary. -/
def SectionValues.empty : SectionValues := ⟨none, none, none, none, none⟩

/-- Dictionary lookup `values.get(k)` restricted to the five keys. -/
def SectionValues.get (vs : SectionValues) (k : Str) : Option Str :=
  if k = "url".data then vs.url
  else if k = "sha256".data then vs.sha256
  else if k = "extract".data then vs.extract
  else if k = "extract_path".data then vs.extract_path
  else if k = "group".data then vs.group
  else none

/-- Dictionary update `values[k] = v` restricted to the five keys. -/
def SectionValues.set (vs : SectionValues) (k v : Str) : SectionValues :=
  if k = "url".data then { vs with url := some v }
  else if k = "sha256".data then { vs with sha256 := some v }
  else if k = "extract".data then { vs with extract := some v }
  else if k = "extract_path".data then { vs with extract_path := some v }
  else if k = "group".data then { vs with group := some v }
  else vs

/-- The five recognised single-occurrence keys. -/
def knownKeys : List Str :=
  ["url".data, "sha256".data, "extract".data, "extract_path".data, "group".data]

/-- The body-line loop of `_parse`: strips and dispatches each
`key = value` line, parsing `marker` lines through the predicate engine
and collecting the other recognised keys at most once each. -/
def processLines (sect path : Str) :
    SectionValues → List Marker → List Str → Except ParseErr (SectionValues × List Marker)
  | vs, ms, [] => Except.ok (vs, ms)
  | vs, ms, line :: rest =>
    match splitKV line with
    | none => Except.error (ParseErr.badLine sect path line)
    | some kv =>
      let k := pyStrip kv.1
      let v := pyStrip kv.2
      if k = "marker".data then
        match Marker.parse v with
        | Except.error e => Except.error (ParseErr.marker e)
        | Except.ok m => processLines sect path vs (ms ++ [m]) rest
      else if k ∈ knownKeys then
        if (vs.get k).isSome then Except.error (ParseErr.duplicateKey sect path k)
        else processLines sect path (vs.set k v) ms rest
      else Except.error (ParseErr.unexpectedKey sect path k)

/-- Python truthiness of an optional string (`bool(values.get(k))`):
false for `None` and for the empty string. -/
def pyTruthy (o : Option Str) : Bool :=
  match o with
  | none => false
  | some s => decide (s ≠ [])

/-- Lexicographic comparison of strings by code point, as Python `sorted`
uses. -/
def strLt : Str → Str → Bool
  | [], [] => false
  | [], _ :: _ => true
  | _ :: _, [] => false
  | a :: as, b :: bs => a < b || (a = b && strLt as bs)

/-- Insertion step of insertion sort on strings. -/
def insertStr (x : Str) : List Str → List Str
  | [] => [x]
  | y :: ys => if strLt x y then x :: y :: ys else y :: insertStr x ys

/-- Insertion sort on strings (models Python `sorted`). -/
def sortStrs : List Str → List Str
  | [] => []
  | x :: xs => insertStr x (sortStrs xs)

/-- Deduplication (models building a Python `set`; order is irrelevant
because every use is sorted afterwards). -/
def dedupStrs : List Str → List Str
  | [] => []
  | x :: xs => if x ∈ xs then dedupStrs xs else x :: dedupStrs xs

/-- Message fragment listing the non-default extract strategies, sorted:
`", ".join(sorted(_EXTRACT.keys() - {"noop"}))`. -/
def extractListing : Str :=
  List.intercalate ", ".data
    (sortStrs (_EXTRACT_keys.filter (fun k => decide (k ≠ "noop".data))))

/-- Post-section validation of `_parse` (source lines 134-171), in source
order: `url`+`sha256` presence, `extract`/`extract_path` pairing by
truthiness, `extract` strategy membership, archive construction,
`group`/`marker` pairing by truthiness, `File` construction. -/
def validateSection (sect path : Str) (vs : SectionValues) (markers : List Marker) :
    Except ParseErr File :=
  if vs.url = none ∨ vs.sha256 = none then
    Except.error (ParseErr.missingUrlSha sect path)
  else if pyTruthy vs.extract ≠ pyTruthy vs.extract_path then
    Except.error (ParseErr.missingExtractPair sect path)
  else if vs.extract ≠ none ∧ (vs.extract.getD []) ∉ _EXTRACT_keys then
    Except.error (ParseErr.badExtract sect path (vs.extract.getD []) extractListing)
  else if pyTruthy vs.group ≠ decide (markers ≠ []) then
    Except.error (ParseErr.missingGroupMarker sect path)
  else
    Except.ok ⟨path, vs.url.getD [], vs.sha256.getD [],
      if vs.extract ≠ none ∧ vs.extract_path ≠ none then
        ⟨vs.extract.getD [], vs.extract_path.getD []⟩
      else Archive.default,
      vs.group, markers⟩

/-- Full handling of one section: body reconstruction, strip, line split,
line loop, validation. -/
def parseSection (sect : Str) (hb : Str × List Str) : Except ParseErr File :=
  match processLines sect hb.1 SectionValues.empty []
      (pySplitlines (pyStrip (List.intercalate ['\n'] hb.2))) with
  | Except.error e => Except.error e
  | Except.ok vm => validateSection sect hb.1 vm.1 vm.2

/-- The stripped input of `_parse`, split into the pieces the `_SECTION`
regular expression produces, line by line. -/
def sectionLines (s : Option Str) : List Str :=
  splitOnSep ['\n'] (pyStrip (s.getD []))

/-- The stray text before the first section header (the first piece
produced by `_SECTION.split`), empty when the input starts with a
header or is empty. -/
def parseJunk (s : Option Str) : Str :=
  if (sectionLines s).dropWhile (fun l => ¬ isHeaderLine l) = [] then
    List.intercalate ['\n'] ((sectionLines s).takeWhile (fun l => ¬ isHeaderLine l))
  else if (sectionLines s).takeWhile (fun l => ¬ isHeaderLine l) = [] then []
  else
    List.intercalate ['\n'] ((sectionLines s).takeWhile (fun l => ¬ isHeaderLine l)) ++ ['\n']

/-- The `_parse` function: strip the input (absent input behaves as the
empty string), split it into sections on the `_SECTION` regular
expression, reject stray leading text, and parse each section in order. -/
def _parse (s : Option Str) (sect : Str) : Except ParseErr (List File) :=
  if parseJunk s ≠ [] then Except.error (ParseErr.junk sect (parseJunk s))
  else
    (gatherSections ((sectionLines s).dropWhile (fun l => ¬ isHeaderLine l))).mapM
      (parseSection sect)

/-- Errors raised by `_filter`: the two `ConflictError` sites and the
`PlatformError` site (the latter carrying the group name and the three
environment values printed as debug info). -/
inductive FilterErr
  | conflictPath (sect path : Str)
  | conflictGroup (sect group : Str)
  | platform (group osName sysPlatform platformMachine : Str)
deriving DecidableEq

/-- Selection predicate of the list comprehension in `_filter`:
`not f.markers or any(m.evaluate(env) for m in f.markers)`. -/
def selPred (env : _Key → Str) (f : File) : Bool :=
  f.markers.isEmpty || f.markers.any (fun m => m.evaluate env)

/-- The duplicate scan of `_filter`: walks the selected files carrying
the `seen` path set and the `seen_groups` set, raising on a repeated
path or group and returning the collected groups. -/
def dupScan (sect : Str) : List Str → List Str → List File → Except FilterErr (List Str)
  | _, seenGroups, [] => Except.ok seenGroups
  | seen, seenGroups, f :: rest =>
    if f.path ∈ seen then Except.error (FilterErr.conflictPath sect f.path)
    else
      match f.group with
      | some g =>
        if g ∈ seenGroups then Except.error (FilterErr.conflictGroup sect g)
        else dupScan sect (f.path :: seen) (g :: seenGroups) rest
      | none => dupScan sect (f.path :: seen) seenGroups rest

/-- Group names appearing on the (unfiltered) input:
`{f.group for f in src if f.group is not None}` before deduplication. -/
def srcGroups (src : List File) : List Str :=
  src.filterMap (fun f => f.group)

/-- The final loop of `_filter`: iterate the sorted set of group names of
the unfiltered input and fail on the first one not among the seen
groups, else return the selected subset. -/
def coverageCheck (env : _Key → Str) (src ret : List File) (gs : List Str) :
    Except FilterErr (List File) :=
  match (sortStrs (dedupStrs (srcGroups src))).find? (fun g => decide (g ∉ gs)) with
  | some g =>
    Except.error (FilterErr.platform g (env _Key.os_name) (env _Key.sys_platform)
      (env _Key.platform_machine))
  | none => Except.ok ret

/-- The `_filter` function, with the environment snapshot passed as a
parameter (the source computes it once from the process environment via
`_default_env`; the three values printed by the platform error are
exactly the snapshot's three public values). -/
def _filter (env : _Key → Str) (src : List File) (sect : Str) :
    Except FilterErr (List File) :=
  match dupScan sect [] [] (src.filter (selPred env)) with
  | Except.error e => Except.error e
  | Except.ok seenGroups =>
    coverageCheck env src (src.filter (selPred env)) seenGroups

/-! SHA-256 over byte lists, translated from the algorithm that
`hashlib.sha256` implements, so that the digest check of `_download` can
be evaluated on concrete inputs.  Words are `Nat` reduced mod `2 ^ 32`. -/

/-- Reduction of a `Nat` to a 32-bit word. -/
def w32 (n : Nat) : Nat := n % 4294967296

/-- Right rotation of a 32-bit word. -/
def rotr (x n : Nat) : Nat := w32 ((x >>> n) ||| (x <<< (32 - n)))

/-- Bitwise complement of a 32-bit word. -/
def not32 (x : Nat) : Nat := x ^^^ 4294967295

/-- SHA-256 `Ch` function. -/
def sha2Ch (e f g : Nat) : Nat := (e &&& f) ^^^ (not32 e &&& g)

/-- SHA-256 `Maj` function. -/
def sha2Maj (a b c : Nat) : Nat := (a &&& b) ^^^ (a &&& c) ^^^ (b &&& c)

/-- SHA-256 big sigma 0. -/
def bsig0 (x : Nat) : Nat := rotr x 2 ^^^ rotr x 13 ^^^ rotr x 22

/-- SHA-256 big sigma 1. -/
def bsig1 (x : Nat) : Nat := rotr x 6 ^^^ rotr x 11 ^^^ rotr x 25

/-- SHA-256 small sigma 0. -/
def ssig0 (x : Nat) : Nat := rotr x 7 ^^^ rotr x 18 ^^^ (x >>> 3)

/-- SHA-256 small sigma 1. -/
def ssig1 (x : Nat) : Nat := rotr x 17 ^^^ rotr x 19 ^^^ (x >>> 10)

/-- SHA-256 round constants (decimal renderings of the FIPS 180-4
values). -/
def sha2K : List Nat :=
  [1116352408, 1899447441, 3049323471, 3921009573,
   961987163, 1508970993, 2453635748, 2870763221,
   3624381080, 310598401, 607225278, 1426881987,
   1925078388, 2162078206, 2614888103, 3248222580,
   3835390401, 4022224774, 264347078, 604807628,
   770255983, 1249150122, 1555081692, 1996064986,
   2554220882, 2821834349, 2952996808, 3210313671,
   3336571891, 3584528711, 113926993, 338241895,
   666307205, 773529912, 1294757372, 1396182291,
   1695183700, 1986661051, 2177026350, 2456956037,
   2730485921, 2820302411, 3259730800, 3345764771,
   3516065817, 3600352804, 4094571909, 275423344,
   430227734, 506948616, 659060556, 883997877,
   958139571, 1322822218, 1537002063, 1747873779,
   1955562222, 2024104815, 2227730452, 2361852424,
   2428436474, 2756734187, 3204031479, 3329325298]

/-- SHA-256 working state (the eight hash words). -/
structure Hash8 where
  a : Nat
  b : Nat
  c : Nat
  d : Nat
  e : Nat
  f : Nat
  g : Nat
  h : Nat
deriving DecidableEq

/-- SHA-256 initial hash value (decimal renderings of the FIPS 180-4
values). -/
def sha2H0 : Hash8 :=
  ⟨1779033703, 3144134277, 1013904242, 2773480762,
   1359893119, 2600822924, 528734635, 1541459225⟩

/-- One SHA-256 compression round. -/
def sha2Round (s : Hash8) (kw : Nat × Nat) : Hash8 :=
  let t1 := w32 (s.h + bsig1 s.e + sha2Ch s.e s.f s.g + kw.1 + kw.2)
  let t2 := w32 (bsig0 s.a + sha2Maj s.a s.b s.c)
  ⟨w32 (t1 + t2), s.a, s.b, s.c, w32 (s.d + t1), s.e, s.f, s.g⟩

/-- Extension of the message schedule by `n` further words. -/
def extendSchedule (w : List Nat) : Nat → List Nat
  | 0 => w
  | n + 1 =>
    let t := w.length
    extendSchedule
      (w ++ [w32 (ssig1 (w.getD (t - 2) 0) + w.getD (t - 7) 0 +
        ssig0 (w.getD (t - 15) 0) + w.getD (t - 16) 0)]) n

/-- Compression of one 16-word block into the running hash. -/
def compressBlock (s : Hash8) (block : List Nat) : Hash8 :=
  let ws := extendSchedule block 48
  let r := (sha2K.zip ws).foldl sha2Round s
  ⟨w32 (s.a + r.a), w32 (s.b + r.b), w32 (s.c + r.c), w32 (s.d + r.d),
   w32 (s.e + r.e), w32 (s.f + r.f), w32 (s.g + r.g), w32 (s.h + r.h)⟩

/-- Big-endian packing of bytes into 32-bit words. -/
def toWords : List Nat → List Nat
  | b0 :: b1 :: b2 :: b3 :: rest =>
    (((b0 * 256 + b1) * 256 + b2) * 256 + b3) :: toWords rest
  | _ => []

/-- Fueled worker for `toBlocks`; fuel at least the length of the list
suffices (each step drops at least one element). -/
def toBlocksGo : Nat → List Nat → List (List Nat)
  | _, [] => []
  | 0, _ :: _ => []
  | fuel + 1, w :: ws => ((w :: ws).take 16) :: toBlocksGo fuel ((w :: ws).drop 16)

/-- Chunking of a word list into 16-word blocks. -/
def toBlocks (l : List Nat) : List (List Nat) := toBlocksGo l.length l

/-- Number of zero pad bytes for a message of `len` bytes. -/
def padLen (len : Nat) : Nat := (119 - len % 64) % 64

/-- Big-endian 8-byte encoding of the bit length. -/
def lenBytes (n : Nat) : List Nat :=
  [n / 2 ^ 56 % 256, n / 2 ^ 48 % 256, n / 2 ^ 40 % 256, n / 2 ^ 32 % 256,
   n / 2 ^ 24 % 256, n / 2 ^ 16 % 256, n / 2 ^ 8 % 256, n % 256]

/-- Lowercase hexadecimal digit for a value below 16. -/
def hexDigitChar (n : Nat) : Char :=
  if n < 10 then Char.ofNat (48 + n) else Char.ofNat (87 + n)

/-- Lowercase hexadecimal rendering of a value on `d` digits. -/
def hexDigits : Nat → Nat → Str
  | 0, _ => []
  | d + 1, v => hexDigits d (v / 16) ++ [hexDigitChar (v % 16)]

/-- Lowercase hexadecimal SHA-256 digest of a byte list
(`hashlib.sha256(contents).hexdigest()`). -/
def sha256Hex (msg : List Nat) : Str :=
  let padded := msg ++ [128] ++ List.replicate (padLen msg.length) 0 ++
    lenBytes (8 * msg.length)
  let r := (toBlocks (toWords padded)).foldl compressBlock sha2H0
  (([r.a, r.b, r.c, r.d, r.e, r.f, r.g, r.h]).map (hexDigits 8)).flatten

/-- Python `secrets.compare_digest` on two ASCII strings: a constant-time
comparison whose result is plain (case-sensitive) string equality. -/
def compare_digest (a b : Str) : Bool := a == b

/-- Error raised by the digest check of `_download`
(`ValueError(f'{f.path}: checksum mismatch {got=} {f.sha256=}')`,
carrying the path, the computed digest and the expected digest). -/
inductive DownloadErr
  | checksum (path got expected : Str)
deriving DecidableEq

/-- Digest verification step of `_download` (source lines 216-218):
computes SHA-256 over the downloaded bytes and compares with
`secrets.compare_digest` against the expected digest.  The surrounding
network read, extraction and file write are I/O and are not part of the
check. -/
def downloadCheck (f : File) (contents : List Nat) : Except DownloadErr Unit :=
  let got := sha256Hex contents
  if compare_digest got f.sha256 then Except.ok ()
  else Except.error (DownloadErr.checksum f.path got f.sha256)

/-- ASCII lowercasing of one character (Python `str.lower()` restricted
to ASCII), used only to state the specification's case-insensitive
comparison claims. -/
def lowerChar (c : Char) : Char :=
  if 'A' ≤ c ∧ c ≤ 'Z' then Char.ofNat (c.toNat + 32) else c

/-- ASCII lowercasing of a string, used only to state the
specification's case-insensitive comparison claims. -/
def strLower (s : Str) : Str := s.map lowerChar

/-- Environment snapshot mapping every key to the empty string, used as a
concrete snapshot in closed statements. -/
def envNull : _Key → Str := fun _ => []

/-- A minimal unconditional file descriptor, used in closed statements. -/
def exF1 : File := ⟨"f1".data, "u".data, "s".data, Archive.default, none, []⟩

/-- Uppercase rendering of the SHA-256 digest of the empty byte string. -/
def upperEmptyDigest : Str :=
  "E3B0C44298FC1C149AFBF4C8996FB92427AE41E4649B934CA495991B7852B855".data

/-! Helper lemmas. -/

/-- When `mapM` meets an element on which `f` cannot succeed, it returns
the error of the first failing element. -/
theorem mapM_error_of_bad {α β ε : Type} (f : α → Except ε β) :
    ∀ l : List α, (∃ x ∈ l, ∀ y, f x ≠ Except.ok y) →
    ∃ x ∈ l, ∃ e, f x = Except.error e ∧ l.mapM f = Except.error e := by
  intro l
  rw [← List.mapM'_eq_mapM]
  induction l with
  | nil => simp
  | cons a t ih =>
    rintro ⟨x, hx, hbad⟩
    cases hfa : f a with
    | error e =>
      refine ⟨a, by simp, e, hfa, ?_⟩
      rw [List.mapM', hfa]
      rfl
    | ok b =>
      rcases List.mem_cons.mp hx with rfl | hx2
      · exact absurd hfa (hbad b)
      · obtain ⟨x2, hx3, e, he, hm⟩ := ih ⟨x, hx2, hbad⟩
        refine ⟨x2, by simp [hx3], e, he, ?_⟩
        rw [List.mapM', hfa, hm]
        rfl

/-- Every element of a successful `mapM` output comes from a successful
application of `f` to some input element. -/
theorem mapM_ok_mem {α β ε : Type} (f : α → Except ε β) :
    ∀ (l : List α) (out : List β), l.mapM f = Except.ok out →
    ∀ y ∈ out, ∃ x ∈ l, f x = Except.ok y := by
  intro l
  rw [← List.mapM'_eq_mapM]
  induction l with
  | nil =>
    intro out h y hy
    have h2 : (Except.ok ([] : List β) : Except ε (List β)) = Except.ok out := h
    cases h2
    simp at hy
  | cons a t ih =>
    intro out h y hy
    rw [List.mapM'] at h
    cases hfa : f a with
    | error e =>
      rw [hfa] at h
      have h2 : (Except.error e : Except ε (List β)) = Except.ok out := h
      cases h2
    | ok b =>
      rw [hfa] at h
      cases hft : t.mapM' f with
      | error e =>
        rw [hft] at h
        have h2 : (Except.error e : Except ε (List β)) = Except.ok out := h
        cases h2
      | ok bs =>
        rw [hft] at h
        have h2 : (Except.ok (b :: bs) : Except ε (List β)) = Except.ok out := h
        cases h2
        rcases List.mem_cons.mp hy with rfl | hy2
        · exact ⟨a, by simp, hfa⟩
        · obtain ⟨x, hx, hfx⟩ := ih bs hft y hy2
          exact ⟨x, by simp [hx], hfx⟩

/-- Fueled splitting of text without an occurrence of the separator
yields the whole text. -/
theorem splitOnSepGo_eq_single (sep : Str) :
    ∀ fuel s, containsSubstr sep s = false → splitOnSepGo sep fuel s = [s] := by
  intro fuel
  induction fuel with
  | zero => intro s _; rfl
  | succ n ih =>
    intro s h
    cases s with
    | nil => rfl
    | cons c rest =>
      rw [containsSubstr] at h
      simp only [Bool.or_eq_false_iff] at h
      rw [splitOnSepGo]
      rw [if_neg (by simp [h.1])]
      rw [ih rest h.2]

/-- Text without an occurrence of the separator is not split. -/
theorem splitOnSep_eq_single (sep : Str) :
    ∀ s, containsSubstr sep s = false → splitOnSep sep s = [s] := by
  intro s h
  exact splitOnSepGo_eq_single sep s.length s h

/-- Every error of `parseClause` is the invalid-syntax error carrying the
key display and the offending clause. -/
theorem parseClause_error_shape (chunk : Str) (e : MarkerErr)
    (h : parseClause chunk = Except.error e) :
    e = MarkerErr.invalid _KEY_DISPLAY chunk := by
  unfold parseClause at h
  split at h
  · split at h
    · split at h
      · exact absurd h (by simp)
      · exact (Except.error.injEq _ _).mp h.symm |>.symm ▸ rfl
    · exact (Except.error.injEq _ _).mp h.symm |>.symm ▸ rfl
  · exact (Except.error.injEq _ _).mp h.symm |>.symm ▸ rfl

/-- Reduction of `parseClause` on a clause with exactly three tokens. -/
theorem parseClause_eq (chunk k op v : Str) (hsp : splitWs chunk = [k, op, v]) :
    parseClause chunk =
      match keyOfString k with
      | some key =>
        if op = "==".data ∧ v.head? = some '\"' ∧ v.getLast? = some '\"' then
          Except.ok (key, (v.drop 1).dropLast)
        else Except.error (MarkerErr.invalid _KEY_DISPLAY chunk)
      | none => Except.error (MarkerErr.invalid _KEY_DISPLAY chunk) := by
  unfold parseClause
  rw [hsp]

/-- Evaluation of `mapM` on a one-element list. -/
theorem mapM_singleton {α β ε : Type} (f : α → Except ε β) (x : α) :
    [x].mapM f =
      match f x with
      | Except.ok y => Except.ok [y]
      | Except.error e => Except.error e := by
  rw [← List.mapM'_eq_mapM]
  cases hfx : f x with
  | ok y =>
    rw [List.mapM', hfx]
    rfl
  | error e =>
    rw [List.mapM', hfx]
    rfl

/-- Reduction of `Marker.parse` on a text that is a single clause
(no `or`, no `and`). -/
theorem marker_parse_single (s : Str) (hor : containsSubstr " or ".data s = false)
    (hand : containsSubstr " and ".data s = false) :
    Marker.parse s =
      match parseClause s with
      | Except.ok y => Except.ok ⟨s, [y]⟩
      | Except.error e => Except.error e := by
  unfold Marker.parse
  rw [if_neg (by simp [hor])]
  rw [splitOnSep_eq_single _ s hand]
  rw [mapM_singleton]
  cases parseClause s with
  | ok y => rfl
  | error e => rfl

/-! Claim theorems. -/

/-- C8: every predicate text containing the literal substring `" or "`
is rejected by `Marker.parse` with the unsupported-syntax error whose
message instructs the caller to repeat `marker =`, whatever the rest of
the text (no clause-level validation is reached). -/
theorem marker_or_rejected (s : Str) (h : containsSubstr " or ".data s = true) :
    Marker.parse s = Except.error (MarkerErr.unsupported orMessage) ∧
    orMessage = "Marker only supports `and` -- maybe repeat `marker =`?".data := by
  constructor
  · simp [Marker.parse, h]
  · rfl

/-- Witness for `marker_or_rejected` at a concrete input. -/
theorem marker_or_rejected_witness :
    containsSubstr " or ".data "os_name == \"nt\" or os_name == \"posix\"".data = true ∧
    Marker.parse "os_name == \"nt\" or os_name == \"posix\"".data =
      Except.error (MarkerErr.unsupported orMessage) :=
  ⟨by decide, (marker_or_rejected "os_name == \"nt\" or os_name == \"posix\"".data (by decide)).1⟩

set_option maxRecDepth 20000 in
/-- C4 (counterexample): the expected digest written in uppercase hex
denotes the correct SHA-256 value of the empty download (its ASCII
lowercasing is the computed digest), yet the check fails with the
checksum error, because `secrets.compare_digest` is case-sensitive. -/
theorem digest_uppercase_counterexample :
    strLower upperEmptyDigest = sha256Hex [] ∧
    downloadCheck ⟨"p".data, "u".data, upperEmptyDigest, Archive.default, none, []⟩ [] =
      Except.error (DownloadErr.checksum "p".data (sha256Hex []) upperEmptyDigest) := by
  constructor
  · rfl
  · rfl

/-- C4 (amended): the digest check succeeds iff the computed
lowercase-hex SHA-256 digest equals the expected digest as an exact
(case-sensitive) string, and on mismatch the error carries the path, the
computed digest and the expected digest verbatim. -/
theorem digest_check_exact (f : File) (contents : List Nat) :
    (downloadCheck f contents = Except.ok () ↔ sha256Hex contents = f.sha256) ∧
    (sha256Hex contents ≠ f.sha256 →
      downloadCheck f contents =
        Except.error (DownloadErr.checksum f.path (sha256Hex contents) f.sha256)) := by
  unfold downloadCheck compare_digest
  by_cases h : sha256Hex contents = f.sha256 <;> simp [h]

set_option maxRecDepth 20000 in
/-- Witness for `digest_check_exact` at a concrete mismatching input. -/
theorem digest_check_exact_witness :
    downloadCheck exF1 [] =
      Except.error (DownloadErr.checksum exF1.path (sha256Hex []) exF1.sha256) :=
  (digest_check_exact exF1 []).2 (by decide)

/-- A clause whose three tokens have a value token that does not both
start and end with a double quote can never parse successfully. -/
theorem parseClause_bad_value (chunk k op v : Str) (hsp : splitWs chunk = [k, op, v])
    (hq : ¬ (v.head? = some '\"' ∧ v.getLast? = some '\"')) :
    ∀ y, parseClause chunk ≠ Except.ok y := by
  intro y h
  rw [parseClause_eq chunk k op v hsp] at h
  cases hk : keyOfString k with
  | some key =>
    simp only [hk] at h
    rw [if_neg (by tauto)] at h
    cases h
  | none =>
    simp only [hk] at h
    cases h

/-- C5 (counterexample): a clause whose third token is a single double
quote is accepted, not rejected: it parses as the empty-string value
(the lone `"` both starts and ends with `"`). -/
theorem marker_single_quote_counterexample :
    Marker.parse "os_name == \"".data =
      Except.ok ⟨"os_name == \"".data, [(_Key.os_name, [])]⟩ := by
  rfl

/-- C5 (amended): Marker.parse fails with an invalid-syntax error on any
clause whose value token does not both start and end with a literal
double quote; a value token consisting of a single double quote counts
as wrapped and is accepted as the empty-string value. -/
theorem marker_unquoted_value_rejected (s k op v : Str)
    (hor : containsSubstr " or ".data s = false)
    (hbad : ∃ c ∈ splitOnSep " and ".data s,
      splitWs c = [k, op, v] ∧ ¬ (v.head? = some '\"' ∧ v.getLast? = some '\"')) :
    (∃ c ∈ splitOnSep " and ".data s,
      Marker.parse s = Except.error (MarkerErr.invalid _KEY_DISPLAY c)) ∧
    Marker.parse "os_name == \"".data =
      Except.ok ⟨"os_name == \"".data, [(_Key.os_name, [])]⟩ := by
  constructor
  · obtain ⟨c, hc, hsp, hq⟩ := hbad
    obtain ⟨x, hx, e, he, hm⟩ :=
      mapM_error_of_bad parseClause _ ⟨c, hc, parseClause_bad_value c k op v hsp hq⟩
    have hshape := parseClause_error_shape x e he
    refine ⟨x, hx, ?_⟩
    unfold Marker.parse
    rw [if_neg (by simp [hor])]
    rw [hm, hshape]
  · rfl

/-- Witness for `marker_unquoted_value_rejected` on the unquoted clause
`os_name == nt`. -/
theorem marker_unquoted_value_rejected_witness :
    containsSubstr " or ".data "os_name == nt".data = false ∧
    (∃ c ∈ splitOnSep " and ".data "os_name == nt".data,
      Marker.parse "os_name == nt".data =
        Except.error (MarkerErr.invalid _KEY_DISPLAY c)) :=
  ⟨by decide,
    (marker_unquoted_value_rejected "os_name == nt".data "os_name".data "==".data "nt".data
      (by decide) ⟨"os_name == nt".data, by decide, by decide, by decide⟩).1⟩

/-- A member name maps to no key exactly when it is outside the four
member names of the `_Key` enumeration. -/
theorem keyOfString_eq_none_iff (k : Str) :
    keyOfString k = none ↔
      k ∉ ["os_name".data, "sys_platform".data, "platform_machine".data, "_internal".data] := by
  unfold keyOfString
  simp only [Option.map_eq_none', List.find?_eq_none, decide_eq_true_eq]
  simp [keyMembers]
  tauto

/-- C6 (counterexample): the internal test-only key `_internal` is a
member of the key enumeration, so a clause over it parses successfully,
contrary to the claim that only the three public keys are accepted. -/
theorem marker_internal_key_counterexample :
    Marker.parse "_internal == \"hellohello\"".data =
      Except.ok ⟨"_internal == \"hellohello\"".data, [(_Key._internal, "hellohello".data)]⟩ := by
  rfl

/-- C6 (amended): a well-formed single clause is accepted iff its key
token is one of the four member names of the key enumeration (the three
public keys plus `_internal`); any other key token fails with the
invalid-syntax error carrying the display that enumerates the three
public keys. -/
theorem marker_key_acceptance (s k v : Str)
    (hor : containsSubstr " or ".data s = false)
    (hand : containsSubstr " and ".data s = false)
    (htok : splitWs s = [k, "==".data, v])
    (hq1 : v.head? = some '\"') (hq2 : v.getLast? = some '\"') :
    ((∃ m, Marker.parse s = Except.ok m) ↔
      k ∈ ["os_name".data, "sys_platform".data, "platform_machine".data, "_internal".data]) ∧
    (keyOfString k = none →
      Marker.parse s = Except.error (MarkerErr.invalid _KEY_DISPLAY s)) := by
  have hp0 := marker_parse_single s hor hand
  cases hk : keyOfString k with
  | some key =>
    have hpc : parseClause s = Except.ok (key, (v.drop 1).dropLast) := by
      rw [parseClause_eq s k "==".data v htok]
      simp only [hk]
      exact if_pos ⟨by trivial, hq1, hq2⟩
    rw [hpc] at hp0
    have hp : Marker.parse s = Except.ok ⟨s, [(key, (v.drop 1).dropLast)]⟩ := hp0
    constructor
    · constructor
      · intro _
        by_contra hmem
        rw [(keyOfString_eq_none_iff k).mpr hmem] at hk
        cases hk
      · intro _
        exact ⟨_, hp⟩
    · intro hnone
      exact Option.noConfusion hnone
  | none =>
    have hpc : parseClause s = Except.error (MarkerErr.invalid _KEY_DISPLAY s) := by
      rw [parseClause_eq s k "==".data v htok]
      simp only [hk]
    rw [hpc] at hp0
    have hp : Marker.parse s = Except.error (MarkerErr.invalid _KEY_DISPLAY s) := hp0
    constructor
    · constructor
      · intro hm2
        obtain ⟨m, hm3⟩ := hm2
        rw [hp] at hm3
        cases hm3
      · intro hmem
        exact absurd hmem ((keyOfString_eq_none_iff k).mp hk)
    · intro _
      exact hp

/-- Witness for `marker_key_acceptance` on the clause
`sys_platform == "linux"`. -/
theorem marker_key_acceptance_witness :
    ((∃ m, Marker.parse "sys_platform == \"linux\"".data = Except.ok m) ↔
      "sys_platform".data ∈
        ["os_name".data, "sys_platform".data, "platform_machine".data, "_internal".data]) ∧
    (keyOfString "sys_platform".data = none →
      Marker.parse "sys_platform == \"linux\"".data =
        Except.error (MarkerErr.invalid _KEY_DISPLAY "sys_platform == \"linux\"".data)) :=
  marker_key_acceptance "sys_platform == \"linux\"".data "sys_platform".data "\"linux\"".data
    (by decide) (by decide) (by decide) (by decide) (by decide)

/-- Inversion of a successful `_filter` run: the output is the selected
subset, the duplicate scan succeeded, and the coverage check found no
missing group. -/
theorem filter_ok_inv (env : _Key → Str) (src : List File) (sect : Str) (ret : List File)
    (h : _filter env src sect = Except.ok ret) :
    ret = src.filter (selPred env) ∧
    ∃ gs, dupScan sect [] [] (src.filter (selPred env)) = Except.ok gs ∧
      (sortStrs (dedupStrs (srcGroups src))).find? (fun g => decide (g ∉ gs)) = none := by
  unfold _filter at h
  split at h
  · cases h
  · rename_i gs hscan
    unfold coverageCheck at h
    split at h
    · cases h
    · rename_i hfind
      cases h
      exact ⟨rfl, gs, hscan, hfind⟩

/-- C1: a successful filter run returns exactly the descriptors whose
marker list is empty or for which some marker evaluates true against the
snapshot, as a subsequence of the input (same relative order). -/
theorem filter_selection (env : _Key → Str) (src : List File) (sect : Str) (ret : List File)
    (h : _filter env src sect = Except.ok ret) :
    ret = src.filter (selPred env) ∧
    List.Sublist ret src ∧
    (∀ f, f ∈ ret ↔ f ∈ src ∧ (f.markers = [] ∨ ∃ m ∈ f.markers, m.evaluate env = true)) := by
  obtain ⟨heq, -⟩ := filter_ok_inv env src sect ret h
  subst heq
  refine ⟨rfl, List.filter_sublist _, ?_⟩
  intro f
  rw [List.mem_filter]
  constructor
  · rintro ⟨hmem, hsel⟩
    refine ⟨hmem, ?_⟩
    unfold selPred at hsel
    rcases Bool.or_eq_true_iff.mp hsel with hempty | hany
    · exact Or.inl (List.isEmpty_iff.mp hempty)
    · obtain ⟨m, hm1, hm2⟩ := List.any_eq_true.mp hany
      exact Or.inr ⟨m, hm1, hm2⟩
  · rintro ⟨hmem, hsel⟩
    refine ⟨hmem, ?_⟩
    unfold selPred
    rcases hsel with hempty | ⟨m, hm1, hm2⟩
    · simp [hempty]
    · exact Bool.or_eq_true_iff.mpr (Or.inr (List.any_eq_true.mpr ⟨m, hm1, hm2⟩))

/-- Witness for `filter_selection` on a one-descriptor input. -/
theorem filter_selection_witness :
    [exF1] = [exF1].filter (selPred envNull) ∧
    List.Sublist [exF1] [exF1] ∧
    (∀ f, f ∈ [exF1] ↔ f ∈ [exF1] ∧
      (f.markers = [] ∨ ∃ m ∈ f.markers, m.evaluate envNull = true)) :=
  filter_selection envNull [exF1] "m".data [exF1] (by rfl)

/-- Inversion of a successful `validateSection` run: the produced file
carries the section's group and markers, the group/marker pairing check
passed, and any present extract strategy is one of the dictionary keys. -/
theorem validateSection_ok (sect path : Str) (vs : SectionValues) (ms : List Marker)
    (f : File) (h : validateSection sect path vs ms = Except.ok f) :
    f.group = vs.group ∧ f.markers = ms ∧ pyTruthy vs.group = decide (ms ≠ []) ∧
    (∀ x, vs.extract = some x → x ∈ _EXTRACT_keys) := by
  unfold validateSection at h
  split at h
  · cases h
  · split at h
    · cases h
    · split at h
      · cases h
      · rename_i hus hpair hbadx
        split at h
        · cases h
        · rename_i hgm
          cases h
          refine ⟨rfl, rfl, not_ne_iff.mp hgm, ?_⟩
          intro x hx
          rcases not_and_or.mp hbadx with hnone | hmem
          · exact Option.noConfusion ((not_not.mp hnone).symm.trans hx)
          · rw [not_not] at hmem
            rw [hx] at hmem
            simpa using hmem

/-- C7 (amended): section validation with an `extract` key succeeds only
when its value is one of the dictionary keys `noop`, `tar`, `zip`; a
value outside the dictionary fails (when reached, with the
unexpected-value error listing the sorted non-default strategies,
which render as `tar, zip`). -/
theorem extract_validation (sect path : Str) (vs : SectionValues) (ms : List Marker) :
    (∀ f, validateSection sect path vs ms = Except.ok f →
      ∀ x, vs.extract = some x → x ∈ _EXTRACT_keys) ∧
    (∀ x url sha, vs.url = some url → vs.sha256 = some sha →
      vs.extract = some x → x ∉ _EXTRACT_keys →
      pyTruthy vs.extract = pyTruthy vs.extract_path →
      validateSection sect path vs ms =
        Except.error (ParseErr.badExtract sect path x extractListing)) ∧
    extractListing = "tar, zip".data := by
  refine ⟨?_, ?_, by rfl⟩
  · intro f h
    exact (validateSection_ok sect path vs ms f h).2.2.2
  · intro x url sha hurl hsha hx hxmem hpair
    unfold validateSection
    rw [if_neg (by simp [hurl, hsha])]
    rw [if_neg (by rw [hpair]; simp)]
    rw [if_pos ⟨by simp [hx], by rw [hx]; simpa using hxmem⟩]
    rw [hx]
    rfl

/-- Witness for `extract_validation` on a section with `extract = ar`. -/
theorem extract_validation_witness :
    validateSection "m".data "f".data
      ⟨some "u".data, some "s".data, some "ar".data, some "p".data, none⟩ [] =
      Except.error (ParseErr.badExtract "m".data "f".data "ar".data extractListing) :=
  (extract_validation "m".data "f".data
    ⟨some "u".data, some "s".data, some "ar".data, some "p".data, none⟩ []).2.1
    "ar".data "u".data "s".data rfl rfl rfl (by decide) (by rfl)

/-- C7 (counterexample): a section whose `extract` value is `noop` (not
`tar` or `zip`) parses successfully, because `noop` is a key of the
extract dictionary. -/
theorem parse_extract_noop_counterexample :
    _parse (some "[f]\nurl = u\nsha256 = s\nextract = noop\nextract_path = p".data) "m".data =
      Except.ok [⟨"f".data, "u".data, "s".data, ⟨"noop".data, "p".data⟩, none, []⟩] := by
  rfl

/-- Inversion of a successful `parseSection` run down to the validation
step. -/
theorem parseSection_ok (sect : Str) (hb : Str × List Str) (f : File)
    (h : parseSection sect hb = Except.ok f) :
    ∃ vs ms, validateSection sect hb.1 vs ms = Except.ok f := by
  unfold parseSection at h
  split at h
  · cases h
  · rename_i vm hvm
    exact ⟨vm.1, vm.2, h⟩

/-- C10 (amended): every descriptor produced by a successful manifest
parse satisfies the truthiness invariant of the source: its group is a
present, non-empty string iff its marker list is non-empty (a present
but empty group with no markers is allowed and yields a descriptor whose
group is set to the empty string). -/
theorem parse_group_marker_invariant (s : Option Str) (sect : Str) (files : List File)
    (h : _parse s sect = Except.ok files) :
    ∀ f ∈ files, (pyTruthy f.group = true ↔ f.markers ≠ []) := by
  intro f hf
  unfold _parse at h
  split at h
  · cases h
  · obtain ⟨hb, hhb, hsec⟩ := mapM_ok_mem (parseSection sect) _ files h f hf
    obtain ⟨vs, ms, hval⟩ := parseSection_ok sect hb f hsec
    obtain ⟨hg, hm, hpair, -⟩ := validateSection_ok sect hb.1 vs ms f hval
    rw [hg, hm, hpair]
    simp

/-- Witness for `parse_group_marker_invariant` on the single descriptor
of a one-section manifest. -/
theorem parse_group_marker_invariant_witness :
    pyTruthy (⟨"f".data, "u".data, "s".data, Archive.default, none, []⟩ : File).group =
        true ↔
      (⟨"f".data, "u".data, "s".data, Archive.default, none, []⟩ : File).markers ≠ [] :=
  parse_group_marker_invariant (some "[f]\nurl = u\nsha256 = s".data) "m".data
    [⟨"f".data, "u".data, "s".data, Archive.default, none, []⟩] (by rfl)
    ⟨"f".data, "u".data, "s".data, Archive.default, none, []⟩ (by simp)

/-- C10 (counterexample): a section with a `group =` line whose value is
empty and no `marker` lines parses successfully, producing a descriptor
whose group is set (to the empty string) while its marker list is empty,
because the source compares the Python truthiness of the values and the
empty string is falsy. -/
theorem parse_empty_group_counterexample :
    _parse (some "[f]\nurl = u\nsha256 = s\ngroup =".data) "m".data =
      Except.ok [⟨"f".data, "u".data, "s".data, Archive.default, some [], []⟩] := by
  rfl

/-- Membership is preserved by sorted insertion. -/
theorem mem_insertStr (x y : Str) (l : List Str) :
    y ∈ insertStr x l ↔ y = x ∨ y ∈ l := by
  induction l with
  | nil => simp [insertStr]
  | cons a t ih =>
    unfold insertStr
    split
    · simp [List.mem_cons]
    · rw [List.mem_cons, ih, List.mem_cons]
      tauto

/-- Membership is preserved by sorting. -/
theorem mem_sortStrs (y : Str) (l : List Str) : y ∈ sortStrs l ↔ y ∈ l := by
  induction l with
  | nil => simp [sortStrs]
  | cons a t ih =>
    unfold sortStrs
    rw [mem_insertStr, ih, List.mem_cons]

/-- Membership is preserved by deduplication. -/
theorem mem_dedupStrs (y : Str) (l : List Str) : y ∈ dedupStrs l ↔ y ∈ l := by
  induction l with
  | nil => simp [dedupStrs]
  | cons a t ih =>
    unfold dedupStrs
    split
    · rename_i hmem
      rw [ih, List.mem_cons]
      constructor
      · exact Or.inr
      · rintro (rfl | h)
        · exact hmem
        · exact h
    · rw [List.mem_cons, List.mem_cons, ih]

/-- Reduction of `_filter` when the duplicate scan succeeds. -/
theorem filter_eq_of_scan_ok (env : _Key → Str) (src : List File) (sect : Str)
    (gs : List Str)
    (hscan : dupScan sect [] [] (src.filter (selPred env)) = Except.ok gs) :
    _filter env src sect = coverageCheck env src (src.filter (selPred env)) gs := by
  unfold _filter
  rw [hscan]

/-- Reduction of `_filter` when the duplicate scan fails. -/
theorem filter_eq_of_scan_error (env : _Key → Str) (src : List File) (sect : Str)
    (e : FilterErr)
    (hscan : dupScan sect [] [] (src.filter (selPred env)) = Except.error e) :
    _filter env src sect = Except.error e := by
  unfold _filter
  rw [hscan]

/-- The group accumulator of a successful duplicate scan is contained in
the result. -/
theorem dupScan_sub (sect : Str) :
    ∀ (l : List File) (seen gs out : List Str),
      dupScan sect seen gs l = Except.ok out → ∀ g ∈ gs, g ∈ out := by
  intro l
  induction l with
  | nil =>
    intro seen gs out h g hg
    have h2 : (Except.ok gs : Except FilterErr (List Str)) = Except.ok out := h
    cases h2
    exact hg
  | cons f rest ih =>
    intro seen gs out h g hg
    unfold dupScan at h
    split at h
    · cases h
    · split at h
      · split at h
        · cases h
        · exact ih _ _ _ h g (List.mem_cons_of_mem _ hg)
      · exact ih _ _ _ h g hg

/-- Every group carried by a file of a successfully scanned list belongs
to the returned group set. -/
theorem dupScan_groups (sect : Str) :
    ∀ (l : List File) (seen gs out : List Str),
      dupScan sect seen gs l = Except.ok out →
      ∀ g, (∃ f ∈ l, f.group = some g) → g ∈ out := by
  intro l
  induction l with
  | nil =>
    intro seen gs out _ g hg
    obtain ⟨f, hf, -⟩ := hg
    simp at hf
  | cons f rest ih =>
    intro seen gs out h g hg
    unfold dupScan at h
    split at h
    · cases h
    · split at h
      · rename_i g2 hg2
        split at h
        · cases h
        · obtain ⟨f2, hf2, hfg⟩ := hg
          rcases List.mem_cons.mp hf2 with rfl | hf3
          · rw [hg2] at hfg
            cases hfg
            exact dupScan_sub sect rest _ _ out h g (List.mem_cons_self g _)
          · exact ih _ _ _ h g ⟨f2, hf3, hfg⟩
      · rename_i hg2
        obtain ⟨f2, hf2, hfg⟩ := hg
        rcases List.mem_cons.mp hf2 with rfl | hf3
        · rw [hg2] at hfg
          cases hfg
        · exact ih _ _ _ h g ⟨f2, hf3, hfg⟩

/-- Under distinct paths and distinct groups the duplicate scan succeeds
and returns the collected groups. -/
theorem dupScan_ok_of_nodup (sect : Str) :
    ∀ (l : List File) (seen gs : List Str),
      (l.map File.path ++ seen).Nodup →
      (l.filterMap File.group ++ gs).Nodup →
      dupScan sect seen gs l =
        Except.ok ((l.filterMap File.group).reverse ++ gs) := by
  intro l
  induction l with
  | nil => intro seen gs _ _; rfl
  | cons f rest ih =>
    intro seen gs hp hg
    have hp2 : (f.path :: (rest.map File.path ++ seen)).Nodup := by simpa using hp
    have hpath : f.path ∉ seen := by
      have := (List.nodup_cons.mp hp2).1
      intro hc
      exact this (List.mem_append.mpr (Or.inr hc))
    have hpih : (rest.map File.path ++ (f.path :: seen)).Nodup :=
      (List.perm_middle).symm.nodup hp2
    unfold dupScan
    rw [if_neg hpath]
    split
    · rename_i g2 hg2
      have hg3 : (g2 :: (rest.filterMap File.group ++ gs)).Nodup := by
        have : (f :: rest).filterMap File.group = g2 :: rest.filterMap File.group := by
          simp [List.filterMap_cons, hg2]
        rw [this] at hg
        simpa using hg
      have hgin : g2 ∉ gs := by
        have := (List.nodup_cons.mp hg3).1
        intro hc
        exact this (List.mem_append.mpr (Or.inr hc))
      rw [if_neg hgin]
      rw [ih (f.path :: seen) (g2 :: gs) hpih ((List.perm_middle).symm.nodup hg3)]
      simp [List.filterMap_cons, hg2]
    · rename_i hg2
      rw [ih (f.path :: seen) gs hpih (by simpa [List.filterMap_cons, hg2] using hg)]
      simp [List.filterMap_cons, hg2]

/-- C9: filtering is idempotent: a successful filter output, filtered
again under the same snapshot, succeeds and is returned unchanged. -/
theorem filter_idempotent (env : _Key → Str) (src : List File) (sect : Str)
    (ret : List File) (h : _filter env src sect = Except.ok ret) :
    _filter env ret sect = Except.ok ret := by
  obtain ⟨heq, gs, hscan, hfind⟩ := filter_ok_inv env src sect ret h
  have hsel : ret.filter (selPred env) = ret := by
    rw [heq]
    exact List.filter_eq_self.mpr (fun a ha => List.of_mem_filter ha)
  have hscan2 : dupScan sect [] [] (ret.filter (selPred env)) = Except.ok gs := by
    rw [hsel, heq]
    exact hscan
  rw [filter_eq_of_scan_ok env ret sect gs hscan2]
  unfold coverageCheck
  have hnone : (sortStrs (dedupStrs (srcGroups ret))).find?
      (fun g => decide (g ∉ gs)) = none := by
    rw [List.find?_eq_none]
    intro g hgmem
    rw [mem_sortStrs, mem_dedupStrs] at hgmem
    obtain ⟨f, hf, hfg⟩ := List.mem_filterMap.mp hgmem
    have hin : g ∈ gs := by
      refine dupScan_groups sect (ret.filter (selPred env)) [] [] gs hscan2 g ⟨f, ?_, hfg⟩
      rw [hsel]
      exact hf
    simp [hin]
  rw [hnone, hsel]

/-- Witness for `filter_idempotent` on an input that really shrinks: the
second descriptor carries a marker that fails under the null snapshot. -/
theorem filter_idempotent_witness :
    _filter envNull [exF1] "m".data = Except.ok [exF1] :=
  filter_idempotent envNull
    [exF1, ⟨"f2".data, "u".data, "s".data, Archive.default, none,
      [⟨[], [(_Key.os_name, "x".data)]⟩]⟩]
    "m".data [exF1] (by rfl)

/-- When the paths (with the already-seen ones) repeat but the groups do
not, the duplicate scan fails with the path-conflict error naming a
repeated path. -/
theorem dupScan_path_dup (sect : Str) :
    ∀ (l : List File) (seen gs : List Str),
      seen.Nodup →
      ((l.filterMap File.group) ++ gs).Nodup →
      ¬ ((l.map File.path) ++ seen).Nodup →
      ∃ p, dupScan sect seen gs l = Except.error (FilterErr.conflictPath sect p) ∧
        (2 ≤ (l.map File.path).count p ∨ (p ∈ l.map File.path ∧ p ∈ seen)) := by
  intro l
  induction l with
  | nil =>
    intro seen gs hseen _ hdup
    exact absurd (by simpa using hseen) hdup
  | cons f rest ih =>
    intro seen gs hseen hg hdup
    by_cases hin : f.path ∈ seen
    · refine ⟨f.path, ?_, Or.inr ⟨by simp, hin⟩⟩
      unfold dupScan
      rw [if_pos hin]
    · have hdup2 : ¬ (rest.map File.path ++ (f.path :: seen)).Nodup := by
        intro hc
        apply hdup
        have h2 := (List.perm_middle).nodup hc
        simpa using h2
      have hseen2 : (f.path :: seen).Nodup := List.nodup_cons.mpr ⟨hin, hseen⟩
      cases hfg : f.group with
      | some g2 =>
        have hfm : (f :: rest).filterMap File.group = g2 :: rest.filterMap File.group := by
          simp [List.filterMap_cons, hfg]
        have hgc : (g2 :: (rest.filterMap File.group ++ gs)).Nodup := by
          rw [hfm] at hg
          simpa using hg
        have hgin : g2 ∉ gs :=
          fun hc => (List.nodup_cons.mp hgc).1 (List.mem_append.mpr (Or.inr hc))
        obtain ⟨p, herr, hdisj⟩ :=
          ih (f.path :: seen) (g2 :: gs) hseen2 ((List.perm_middle).symm.nodup hgc) hdup2
        refine ⟨p, ?_, ?_⟩
        · unfold dupScan
          rw [if_neg hin]
          simp only [hfg]
          rw [if_neg hgin]
          exact herr
        · rcases hdisj with hcount | ⟨hmem, hmem2⟩
          · left
            have h2 : ((f :: rest).map File.path).count p =
                (rest.map File.path).count p + (if f.path == p then 1 else 0) := by
              simp [List.count_cons]
            split at h2 <;> omega
          · rcases List.mem_cons.mp hmem2 with rfl | hmem3
            · left
              have h1 : 0 < (rest.map File.path).count f.path :=
                List.count_pos_iff.mpr hmem
              have h2 : ((f :: rest).map File.path).count f.path =
                  (rest.map File.path).count f.path + 1 := by
                simp [List.count_cons]
              omega
            · exact Or.inr ⟨List.mem_cons_of_mem _ hmem, hmem3⟩
      | none =>
        have hfm : (f :: rest).filterMap File.group = rest.filterMap File.group := by
          simp [List.filterMap_cons, hfg]
        obtain ⟨p, herr, hdisj⟩ :=
          ih (f.path :: seen) gs hseen2 (by rw [hfm] at hg; exact hg) hdup2
        refine ⟨p, ?_, ?_⟩
        · unfold dupScan
          rw [if_neg hin]
          simp only [hfg]
          exact herr
        · rcases hdisj with hcount | ⟨hmem, hmem2⟩
          · left
            have h2 : ((f :: rest).map File.path).count p =
                (rest.map File.path).count p + (if f.path == p then 1 else 0) := by
              simp [List.count_cons]
            split at h2 <;> omega
          · rcases List.mem_cons.mp hmem2 with rfl | hmem3
            · left
              have h1 : 0 < (rest.map File.path).count f.path :=
                List.count_pos_iff.mpr hmem
              have h2 : ((f :: rest).map File.path).count f.path =
                  (rest.map File.path).count f.path + 1 := by
                simp [List.count_cons]
              omega
            · exact Or.inr ⟨List.mem_cons_of_mem _ hmem, hmem3⟩

/-- When the groups (with the already-collected ones) repeat but the
paths do not, the duplicate scan fails with the group-conflict error
naming a repeated group. -/
theorem dupScan_group_dup (sect : Str) :
    ∀ (l : List File) (seen gs : List Str),
      ((l.map File.path) ++ seen).Nodup →
      gs.Nodup →
      ¬ ((l.filterMap File.group) ++ gs).Nodup →
      ∃ g, dupScan sect seen gs l = Except.error (FilterErr.conflictGroup sect g) ∧
        (2 ≤ (l.filterMap File.group).count g ∨
          (g ∈ l.filterMap File.group ∧ g ∈ gs)) := by
  intro l
  induction l with
  | nil =>
    intro seen gs _ hgs hdup
    exact absurd (by simpa using hgs) hdup
  | cons f rest ih =>
    intro seen gs hp hgs hdup
    have hp2 : (f.path :: (rest.map File.path ++ seen)).Nodup := by simpa using hp
    have hin : f.path ∉ seen :=
      fun hc => (List.nodup_cons.mp hp2).1 (List.mem_append.mpr (Or.inr hc))
    have hpih : (rest.map File.path ++ (f.path :: seen)).Nodup :=
      (List.perm_middle).symm.nodup hp2
    cases hfg : f.group with
    | some g2 =>
      have hfm : (f :: rest).filterMap File.group = g2 :: rest.filterMap File.group := by
        simp [List.filterMap_cons, hfg]
      by_cases hgin : g2 ∈ gs
      · refine ⟨g2, ?_, Or.inr ⟨by simp [hfm], hgin⟩⟩
        unfold dupScan
        rw [if_neg hin]
        simp only [hfg]
        rw [if_pos hgin]
      · have hdup2 : ¬ (rest.filterMap File.group ++ (g2 :: gs)).Nodup := by
          intro hc
          apply hdup
          rw [hfm]
          have h2 := (List.perm_middle).nodup hc
          simpa using h2
        obtain ⟨g3, herr, hdisj⟩ :=
          ih (f.path :: seen) (g2 :: gs) hpih (List.nodup_cons.mpr ⟨hgin, hgs⟩) hdup2
        refine ⟨g3, ?_, ?_⟩
        · unfold dupScan
          rw [if_neg hin]
          simp only [hfg]
          rw [if_neg hgin]
          exact herr
        · rw [hfm]
          rcases hdisj with hcount | ⟨hmem, hmem2⟩
          · left
            have h2 : (g2 :: rest.filterMap File.group).count g3 =
                (rest.filterMap File.group).count g3 + (if g2 == g3 then 1 else 0) := by
              simp [List.count_cons]
            split at h2 <;> omega
          · rcases List.mem_cons.mp hmem2 with rfl | hmem3
            · left
              have h1 : 0 < (rest.filterMap File.group).count g3 :=
                List.count_pos_iff.mpr hmem
              have h2 : (g3 :: rest.filterMap File.group).count g3 =
                  (rest.filterMap File.group).count g3 + 1 := by
                simp [List.count_cons]
              omega
            · exact Or.inr ⟨List.mem_cons_of_mem _ hmem, hmem3⟩
    | none =>
      have hfm : (f :: rest).filterMap File.group = rest.filterMap File.group := by
        simp [List.filterMap_cons, hfg]
      obtain ⟨g3, herr, hdisj⟩ :=
        ih (f.path :: seen) gs hpih hgs (by rw [hfm] at hdup; exact hdup)
      refine ⟨g3, ?_, ?_⟩
      · unfold dupScan
        rw [if_neg hin]
        simp only [hfg]
        exact herr
      · rw [hfm]
        exact hdisj

/-- C3 (amended): among the selected descriptors, a repeated destination
path (with no repeated group) makes filtering fail with the
path-conflict error naming a path that occurs at least twice; a repeated
group (with no repeated path) makes filtering fail with the
group-conflict error naming a group that occurs at least twice; and two
descriptors with the same path, no group and no markers always fail with
the path-conflict error, whatever their other fields. -/
theorem filter_conflicts :
    (∀ (env : _Key → Str) (src : List File) (sect : Str),
      ¬ ((src.filter (selPred env)).map File.path).Nodup →
      ((src.filter (selPred env)).filterMap File.group).Nodup →
      ∃ p, _filter env src sect = Except.error (FilterErr.conflictPath sect p) ∧
        2 ≤ ((src.filter (selPred env)).map File.path).count p) ∧
    (∀ (env : _Key → Str) (src : List File) (sect : Str),
      ((src.filter (selPred env)).map File.path).Nodup →
      ¬ ((src.filter (selPred env)).filterMap File.group).Nodup →
      ∃ g, _filter env src sect = Except.error (FilterErr.conflictGroup sect g) ∧
        2 ≤ ((src.filter (selPred env)).filterMap File.group).count g) ∧
    (∀ (env : _Key → Str) (sect : Str) (f1 f2 : File),
      f1.path = f2.path → f1.group = none → f2.group = none →
      f1.markers = [] → f2.markers = [] →
      _filter env [f1, f2] sect =
        Except.error (FilterErr.conflictPath sect f1.path)) := by
  refine ⟨?_, ?_, ?_⟩
  · intro env src sect hdup hgood
    obtain ⟨p, herr, hdisj⟩ := dupScan_path_dup sect (src.filter (selPred env)) [] []
      List.nodup_nil (by simpa using hgood) (by simpa using hdup)
    refine ⟨p, filter_eq_of_scan_error env src sect _ herr, ?_⟩
    rcases hdisj with h2 | ⟨-, hmem⟩
    · exact h2
    · simp at hmem
  · intro env src sect hgood hdup
    obtain ⟨g, herr, hdisj⟩ := dupScan_group_dup sect (src.filter (selPred env)) [] []
      (by simpa using hgood) List.nodup_nil (by simpa using hdup)
    refine ⟨g, filter_eq_of_scan_error env src sect _ herr, ?_⟩
    rcases hdisj with h2 | ⟨-, hmem⟩
    · exact h2
    · simp at hmem
  · intro env sect f1 f2 hpath hg1 hg2 hm1 hm2
    have hsel : [f1, f2].filter (selPred env) = [f1, f2] := by
      simp [selPred, hm1, hm2]
    have hscan : dupScan sect [] [] [f1, f2] =
        Except.error (FilterErr.conflictPath sect f2.path) := by
      unfold dupScan
      rw [if_neg (by simp)]
      simp only [hg1]
      unfold dupScan
      rw [if_pos (by simp [hpath])]
    rw [show FilterErr.conflictPath sect f1.path =
      FilterErr.conflictPath sect f2.path from by rw [hpath]]
    apply filter_eq_of_scan_error
    rw [hsel]
    exact hscan

/-- Witness for `filter_conflicts` on two identical-path unconditional
descriptors with different other fields. -/
theorem filter_conflicts_witness :
    _filter envNull
      [⟨"a".data, "u1".data, "s1".data, Archive.default, none, []⟩,
       ⟨"a".data, "u2".data, "s2".data, Archive.default, none, []⟩] "m".data =
      Except.error (FilterErr.conflictPath "m".data "a".data) :=
  filter_conflicts.2.2 envNull "m".data
    ⟨"a".data, "u1".data, "s1".data, Archive.default, none, []⟩
    ⟨"a".data, "u2".data, "s2".data, Archive.default, none, []⟩
    rfl rfl rfl rfl rfl

/-- C3 (counterexample): with a repeated path among the selected
descriptors and also a repeated group, the scan reports the group
conflict, not the path conflict naming the repeated path: the checks are
interleaved in scan order. -/
theorem filter_conflict_counterexample :
    2 ≤ ((([⟨"a".data, "u".data, "s".data, Archive.default, some "g".data, []⟩,
            ⟨"b".data, "u".data, "s".data, Archive.default, some "g".data, []⟩,
            ⟨"a".data, "u".data, "s".data, Archive.default, none, []⟩] : List File).filter
        (selPred envNull)).map File.path).count "a".data ∧
    _filter envNull
      [⟨"a".data, "u".data, "s".data, Archive.default, some "g".data, []⟩,
       ⟨"b".data, "u".data, "s".data, Archive.default, some "g".data, []⟩,
       ⟨"a".data, "u".data, "s".data, Archive.default, none, []⟩] "m".data =
      Except.error (FilterErr.conflictGroup "m".data "g".data) ∧
    (match _filter envNull
        [⟨"a".data, "u".data, "s".data, Archive.default, some "g".data, []⟩,
         ⟨"b".data, "u".data, "s".data, Archive.default, some "g".data, []⟩,
         ⟨"a".data, "u".data, "s".data, Archive.default, none, []⟩] "m".data with
      | Except.error (FilterErr.conflictPath _ _) => true
      | _ => false) = false := by
  refine ⟨by decide, by rfl, by rfl⟩

/-- C2 (amended): when the selected subset has no duplicate path and no
duplicate group, a group name that appears in the unfiltered input but
on no selected descriptor makes filtering fail with the
platform-unsupported error naming such a missing group (the first in
sorted order) and carrying the three environment values; and for two
descriptors sharing a group, each with one equality predicate over the
same key with two different values, exactly the matching one survives
when the key takes one of the two values, and filtering fails with the
platform error when it takes neither. -/
theorem filter_group_coverage :
    (∀ (env : _Key → Str) (src : List File) (sect g : Str),
      ((src.filter (selPred env)).map File.path).Nodup →
      ((src.filter (selPred env)).filterMap File.group).Nodup →
      (∃ f ∈ src, f.group = some g) →
      (∀ f ∈ src.filter (selPred env), f.group ≠ some g) →
      ∃ g2, _filter env src sect =
          Except.error (FilterErr.platform g2 (env _Key.os_name) (env _Key.sys_platform)
            (env _Key.platform_machine)) ∧
        (∃ f ∈ src, f.group = some g2) ∧
        (∀ f ∈ src.filter (selPred env), f.group ≠ some g2)) ∧
    (∀ (env : _Key → Str) (sect : Str) (key : _Key)
        (v1 v2 g p1 p2 u1 u2 s1 s2 o1 o2 : Str),
      v1 ≠ v2 →
      ((env key = v1 →
        _filter env
          [⟨p1, u1, s1, Archive.default, some g, [⟨o1, [(key, v1)]⟩]⟩,
           ⟨p2, u2, s2, Archive.default, some g, [⟨o2, [(key, v2)]⟩]⟩] sect =
          Except.ok [⟨p1, u1, s1, Archive.default, some g, [⟨o1, [(key, v1)]⟩]⟩]) ∧
       (env key = v2 →
        _filter env
          [⟨p1, u1, s1, Archive.default, some g, [⟨o1, [(key, v1)]⟩]⟩,
           ⟨p2, u2, s2, Archive.default, some g, [⟨o2, [(key, v2)]⟩]⟩] sect =
          Except.ok [⟨p2, u2, s2, Archive.default, some g, [⟨o2, [(key, v2)]⟩]⟩]) ∧
       (env key ≠ v1 → env key ≠ v2 →
        _filter env
          [⟨p1, u1, s1, Archive.default, some g, [⟨o1, [(key, v1)]⟩]⟩,
           ⟨p2, u2, s2, Archive.default, some g, [⟨o2, [(key, v2)]⟩]⟩] sect =
          Except.error (FilterErr.platform g (env _Key.os_name) (env _Key.sys_platform)
            (env _Key.platform_machine))))) := by
  constructor
  · intro env src sect g hnp hng hsome hnone
    have hscan := dupScan_ok_of_nodup sect (src.filter (selPred env)) [] []
      (by simpa using hnp) (by simpa using hng)
    have hgs : ∀ x : Str,
        x ∈ ((src.filter (selPred env)).filterMap File.group).reverse ++ ([] : List Str) ↔
        ∃ f ∈ src.filter (selPred env), f.group = some x := by
      intro x
      rw [List.append_nil, List.mem_reverse, List.mem_filterMap]
    have hmemg : g ∈ sortStrs (dedupStrs (srcGroups src)) := by
      rw [mem_sortStrs, mem_dedupStrs]
      unfold srcGroups
      obtain ⟨f, hf, hfg⟩ := hsome
      exact List.mem_filterMap.mpr ⟨f, hf, hfg⟩
    have hgnot :
        g ∉ ((src.filter (selPred env)).filterMap File.group).reverse ++ ([] : List Str) := by
      intro hc
      obtain ⟨f, hf, hfg⟩ := (hgs g).mp hc
      exact hnone f hf hfg
    have hsomefind : ((sortStrs (dedupStrs (srcGroups src))).find?
        (fun x => decide
          (x ∉ ((src.filter (selPred env)).filterMap File.group).reverse ++
            ([] : List Str)))).isSome := by
      rw [List.find?_isSome]
      exact ⟨g, hmemg, by simpa using hgnot⟩
    obtain ⟨g2, hfind⟩ := Option.isSome_iff_exists.mp hsomefind
    have hp2 := List.find?_some hfind
    have hnotin :
        g2 ∉ ((src.filter (selPred env)).filterMap File.group).reverse ++ ([] : List Str) := by
      simpa using hp2
    have hmem2 := List.mem_of_find?_eq_some hfind
    rw [mem_sortStrs, mem_dedupStrs] at hmem2
    refine ⟨g2, ?_, ?_, ?_⟩
    · rw [filter_eq_of_scan_ok env src sect _ hscan]
      unfold coverageCheck
      rw [hfind]
    · unfold srcGroups at hmem2
      exact List.mem_filterMap.mp hmem2
    · intro f hf hfg
      exact hnotin ((hgs g2).mpr ⟨f, hf, hfg⟩)
  · intro env sect key v1 v2 g p1 p2 u1 u2 s1 s2 o1 o2 hv
    refine ⟨?_, ?_, ?_⟩
    · intro h1
      have hsel :
          ([⟨p1, u1, s1, Archive.default, some g, [⟨o1, [(key, v1)]⟩]⟩,
            ⟨p2, u2, s2, Archive.default, some g, [⟨o2, [(key, v2)]⟩]⟩] : List File).filter
            (selPred env) =
          [⟨p1, u1, s1, Archive.default, some g, [⟨o1, [(key, v1)]⟩]⟩] := by
        simp [selPred, Marker.evaluate, h1, hv]
      rw [filter_eq_of_scan_ok env _ sect [g] (by rw [hsel]; rfl)]
      rw [hsel]
      unfold coverageCheck
      have hsg : sortStrs (dedupStrs (srcGroups
          [⟨p1, u1, s1, Archive.default, some g, [⟨o1, [(key, v1)]⟩]⟩,
           ⟨p2, u2, s2, Archive.default, some g, [⟨o2, [(key, v2)]⟩]⟩])) = [g] := by
        simp [srcGroups, dedupStrs, sortStrs, insertStr]
      rw [hsg]
      have hfind : List.find? (fun x => decide (x ∉ ([g] : List Str))) [g] = none := by
        rw [List.find?_eq_none]
        intro x hx
        simp at hx
        subst hx
        simp
      rw [hfind]
    · intro h2
      have hsel :
          ([⟨p1, u1, s1, Archive.default, some g, [⟨o1, [(key, v1)]⟩]⟩,
            ⟨p2, u2, s2, Archive.default, some g, [⟨o2, [(key, v2)]⟩]⟩] : List File).filter
            (selPred env) =
          [⟨p2, u2, s2, Archive.default, some g, [⟨o2, [(key, v2)]⟩]⟩] := by
        simp [selPred, Marker.evaluate, h2, Ne.symm hv]
      rw [filter_eq_of_scan_ok env _ sect [g] (by rw [hsel]; rfl)]
      rw [hsel]
      unfold coverageCheck
      have hsg : sortStrs (dedupStrs (srcGroups
          [⟨p1, u1, s1, Archive.default, some g, [⟨o1, [(key, v1)]⟩]⟩,
           ⟨p2, u2, s2, Archive.default, some g, [⟨o2, [(key, v2)]⟩]⟩])) = [g] := by
        simp [srcGroups, dedupStrs, sortStrs, insertStr]
      rw [hsg]
      have hfind : List.find? (fun x => decide (x ∉ ([g] : List Str))) [g] = none := by
        rw [List.find?_eq_none]
        intro x hx
        simp at hx
        subst hx
        simp
      rw [hfind]
    · intro h1 h2
      have hsel :
          ([⟨p1, u1, s1, Archive.default, some g, [⟨o1, [(key, v1)]⟩]⟩,
            ⟨p2, u2, s2, Archive.default, some g, [⟨o2, [(key, v2)]⟩]⟩] : List File).filter
            (selPred env) = [] := by
        simp [selPred, Marker.evaluate, h1, h2]
      rw [filter_eq_of_scan_ok env _ sect [] (by rw [hsel]; rfl)]
      unfold coverageCheck
      have hsg : sortStrs (dedupStrs (srcGroups
          [⟨p1, u1, s1, Archive.default, some g, [⟨o1, [(key, v1)]⟩]⟩,
           ⟨p2, u2, s2, Archive.default, some g, [⟨o2, [(key, v2)]⟩]⟩])) = [g] := by
        simp [srcGroups, dedupStrs, sortStrs, insertStr]
      rw [hsg]
      have hfind : List.find? (fun x => decide (x ∉ ([] : List Str))) [g] = some g :=
        List.find?_cons_of_pos _ (by simp)
      rw [hfind]

/-- Witness for `filter_group_coverage` on a one-member group whose only
predicate fails under the null snapshot. -/
theorem filter_group_coverage_witness :
    ∃ g2, _filter envNull
        [⟨"c".data, "u".data, "s".data, Archive.default, some "g".data,
          [⟨[], [(_Key.os_name, "x".data)]⟩]⟩] "m".data =
        Except.error (FilterErr.platform g2 (envNull _Key.os_name) (envNull _Key.sys_platform)
          (envNull _Key.platform_machine)) ∧
      (∃ f ∈ ([⟨"c".data, "u".data, "s".data, Archive.default, some "g".data,
          [⟨[], [(_Key.os_name, "x".data)]⟩]⟩] : List File), f.group = some g2) ∧
      (∀ f ∈ ([⟨"c".data, "u".data, "s".data, Archive.default, some "g".data,
          [⟨[], [(_Key.os_name, "x".data)]⟩]⟩] : List File).filter (selPred envNull),
        f.group ≠ some g2) :=
  filter_group_coverage.1 envNull
    [⟨"c".data, "u".data, "s".data, Archive.default, some "g".data,
      [⟨[], [(_Key.os_name, "x".data)]⟩]⟩] "m".data "g".data
    (by decide) (by decide) (by decide) (by decide)

/-- C2 (counterexample): a group missing from the selected subset does
not always produce the platform-unsupported error: a duplicate-path
conflict detected first preempts it. -/
theorem filter_missing_group_counterexample :
    (([⟨"a".data, "u".data, "s".data, Archive.default, none, []⟩,
       ⟨"a".data, "u".data, "s".data, Archive.default, none, []⟩,
       ⟨"c".data, "u".data, "s".data, Archive.default, some "g".data,
         [⟨[], [(_Key.os_name, "x".data)]⟩]⟩] : List File).any
      (fun f => f.group == some "g".data)) = true ∧
    ((([⟨"a".data, "u".data, "s".data, Archive.default, none, []⟩,
        ⟨"a".data, "u".data, "s".data, Archive.default, none, []⟩,
        ⟨"c".data, "u".data, "s".data, Archive.default, some "g".data,
          [⟨[], [(_Key.os_name, "x".data)]⟩]⟩] : List File).filter (selPred envNull)).all
      (fun f => !(f.group == some "g".data))) = true ∧
    _filter envNull
      [⟨"a".data, "u".data, "s".data, Archive.default, none, []⟩,
       ⟨"a".data, "u".data, "s".data, Archive.default, none, []⟩,
       ⟨"c".data, "u".data, "s".data, Archive.default, some "g".data,
         [⟨[], [(_Key.os_name, "x".data)]⟩]⟩] "m".data =
      Except.error (FilterErr.conflictPath "m".data "a".data) ∧
    (match _filter envNull
        [⟨"a".data, "u".data, "s".data, Archive.default, none, []⟩,
         ⟨"a".data, "u".data, "s".data, Archive.default, none, []⟩,
         ⟨"c".data, "u".data, "s".data, Archive.default, some "g".data,
           [⟨[], [(_Key.os_name, "x".data)]⟩]⟩] "m".data with
      | Except.error (FilterErr.platform _ _ _ _) => true
      | _ => false) = false := by
  refine ⟨by rfl, by rfl, by rfl, by rfl⟩

end SetuptoolsDownload
